import Mathlib

/-!
Verification development for the ms-365-mcp-server repository.

The definitions below are a shallow embedding of the JavaScript sources
`src/dist/auth.js`, `src/dist/graph-tools.js` and `src/dist/index.js`:
JavaScript `Set` objects over strings are modelled as insertion-ordered
duplicate-free `List String`, plain objects used as string maps as
insertion-ordered association lists, JavaScript values that can appear in
a tool-invocation parameter bag as the inductive `JValue`, and thrown
exceptions as `Except` / explicit error outcomes.  External builtins
(`JSON.parse` for request bodies, the `RegExp` engine) are taken as
function parameters; deterministic builtins (`encodeURIComponent`,
`String.prototype.replace` with a string pattern, `JSON.stringify`)
are implemented directly.
-/

/-! ## JavaScript string-set model (auth.js uses `Set` of scope strings) -/

/-- `Set.add`: append the element if it is not already present
(JavaScript sets preserve insertion order). -/
def jsSetAdd (l : List String) (s : String) : List String :=
  if s ∈ l then l else l ++ [s]

/-! ## Scope Aggregator — `buildScopesFromEndpoints` in `src/dist/auth.js` -/

/-- The slice of an endpoint descriptor that `buildScopesFromEndpoints`
reads: its `scopes` field (absent or an array) and the
`requiresWorkAccount` flag. -/
structure EndpointScopeInfo where
  scopes : Option (List String)
  requiresWorkAccount : Bool
deriving DecidableEq

/-- The `SCOPE_HIERARCHY` constant of `auth.js`: each entry maps a
write scope to the list of read scopes it supersedes. -/
def SCOPE_HIERARCHY : List (String × List String) :=
  [("Mail.ReadWrite", ["Mail.Read"]),
   ("Calendars.ReadWrite", ["Calendars.Read"]),
   ("Files.ReadWrite", ["Files.Read"]),
   ("Tasks.ReadWrite", ["Tasks.Read"]),
   ("Contacts.ReadWrite", ["Contacts.Read"])]

/-- One step of the endpoint scan in `buildScopesFromEndpoints`: skip
work-account endpoints unless requested, otherwise add every scope of the
endpoint to the accumulating set. -/
def collectStep (includeWork : Bool) (acc : List String) (e : EndpointScopeInfo) :
    List String :=
  if e.requiresWorkAccount && !includeWork then acc
  else
    match e.scopes with
    | some scs => scs.foldl jsSetAdd acc
    | none => acc

/-- One step of the hierarchy pass: if every lower (read) scope of the
entry is present, delete them all and add the higher (write) scope. -/
def hierStep (acc : List String) (entry : String × List String) : List String :=
  if entry.2.all (fun s => acc.contains s) then
    jsSetAdd (entry.2.foldl (fun a s => a.erase s) acc) entry.1
  else acc

/-- `buildScopesFromEndpoints(includeWorkAccountScopes)` from `auth.js`:
collect the scopes of all (included) endpoints into a set, then run the
hierarchy collapse over `SCOPE_HIERARCHY`, and return the set as a list. -/
def buildScopesFromEndpoints (endpoints : List EndpointScopeInfo)
    (includeWorkAccountScopes : Bool) : List String :=
  SCOPE_HIERARCHY.foldl hierStep
    (endpoints.foldl (collectStep includeWorkAccountScopes) [])

/-! ### Helper lemmas about the set model -/

theorem mem_jsSetAdd_self (l : List String) (s : String) : s ∈ jsSetAdd l s := by
  unfold jsSetAdd
  split
  · assumption
  · simp

theorem mem_jsSetAdd_of_mem {l : List String} {x : String} (s : String)
    (h : x ∈ l) : x ∈ jsSetAdd l s := by
  unfold jsSetAdd
  split
  · exact h
  · simp [h]

theorem not_mem_jsSetAdd {l : List String} {x s : String}
    (hx : x ∉ l) (hs : x ≠ s) : x ∉ jsSetAdd l s := by
  unfold jsSetAdd
  split
  · exact hx
  · simp [hx, hs]

theorem nodup_jsSetAdd {l : List String} (h : l.Nodup) (s : String) :
    (jsSetAdd l s).Nodup := by
  unfold jsSetAdd
  split
  · exact h
  · simpa [List.nodup_append, h] using (by assumption : s ∉ l)

theorem mem_foldl_jsSetAdd_of_mem {x : String} :
    ∀ (l : List String) (acc : List String), x ∈ acc → x ∈ l.foldl jsSetAdd acc
  | [], _, h => h
  | s :: rest, acc, h => mem_foldl_jsSetAdd_of_mem rest (jsSetAdd acc s) (mem_jsSetAdd_of_mem s h)

theorem mem_foldl_jsSetAdd_of_mem_list {x : String} :
    ∀ (l : List String) (acc : List String), x ∈ l → x ∈ l.foldl jsSetAdd acc
  | [], _, h => absurd h (List.not_mem_nil x)
  | s :: rest, acc, h => by
    rcases List.mem_cons.mp h with h' | h'
    · subst h'
      exact mem_foldl_jsSetAdd_of_mem rest _ (mem_jsSetAdd_self acc x)
    · exact mem_foldl_jsSetAdd_of_mem_list rest _ h'

theorem nodup_foldl_jsSetAdd :
    ∀ (l : List String) (acc : List String), acc.Nodup → (l.foldl jsSetAdd acc).Nodup
  | [], _, h => h
  | s :: rest, acc, h => nodup_foldl_jsSetAdd rest (jsSetAdd acc s) (nodup_jsSetAdd h s)

theorem mem_collectStep_of_mem {x : String} {acc : List String} (b : Bool)
    (e : EndpointScopeInfo) (h : x ∈ acc) : x ∈ collectStep b acc e := by
  unfold collectStep
  split
  · exact h
  · match e.scopes with
    | some scs => exact mem_foldl_jsSetAdd_of_mem scs acc h
    | none => exact h

theorem nodup_collectStep {acc : List String} (b : Bool) (e : EndpointScopeInfo)
    (h : acc.Nodup) : (collectStep b acc e).Nodup := by
  unfold collectStep
  split
  · exact h
  · match e.scopes with
    | some scs => exact nodup_foldl_jsSetAdd scs acc h
    | none => exact h

theorem mem_foldl_collect_of_mem {x : String} :
    ∀ (endpoints : List EndpointScopeInfo) (b : Bool) (acc : List String),
      x ∈ acc → x ∈ endpoints.foldl (collectStep b) acc
  | [], _, _, h => h
  | e :: rest, b, acc, h =>
    mem_foldl_collect_of_mem rest b _ (mem_collectStep_of_mem b e h)

theorem mem_collected {r : String} :
    ∀ (endpoints : List EndpointScopeInfo) (b : Bool) (acc : List String),
      (∃ e ∈ endpoints, (e.requiresWorkAccount && !b) = false ∧
        ∃ scs, e.scopes = some scs ∧ r ∈ scs) →
      r ∈ endpoints.foldl (collectStep b) acc
  | [], _, _, h => by simp at h
  | e :: rest, b, acc, h => by
    rcases h with ⟨e', he', hcond, scs, hscs, hr⟩
    rcases List.mem_cons.mp he' with h' | h'
    · subst h'
      refine mem_foldl_collect_of_mem rest b _ ?_
      unfold collectStep
      rw [hcond, hscs]
      simpa using mem_foldl_jsSetAdd_of_mem_list scs acc hr
    · exact mem_collected rest b (collectStep b acc e) ⟨e', h', hcond, scs, hscs, hr⟩

theorem nodup_collected :
    ∀ (endpoints : List EndpointScopeInfo) (b : Bool) (acc : List String),
      acc.Nodup → (endpoints.foldl (collectStep b) acc).Nodup
  | [], _, _, h => h
  | e :: rest, b, acc, h => nodup_collected rest b _ (nodup_collectStep b e h)

theorem mem_foldl_erase_of_not_mem {x : String} :
    ∀ (l : List String) (acc : List String), x ∈ acc → x ∉ l →
      x ∈ l.foldl (fun a s => a.erase s) acc
  | [], _, hx, _ => hx
  | s :: rest, acc, hx, hl => by
    refine mem_foldl_erase_of_not_mem rest _ ?_ (fun h => hl (List.mem_cons_of_mem s h))
    exact (List.mem_erase_of_ne
      (fun h => hl (by rw [h]; exact List.mem_cons_self s rest))).mpr hx

theorem mem_of_mem_foldl_erase {x : String} :
    ∀ (l : List String) (acc : List String),
      x ∈ l.foldl (fun a s => a.erase s) acc → x ∈ acc
  | [], _, h => h
  | s :: rest, acc, h =>
    List.mem_of_mem_erase (mem_of_mem_foldl_erase rest (acc.erase s) h)

theorem nodup_foldl_erase :
    ∀ (l : List String) (acc : List String), acc.Nodup →
      (l.foldl (fun a s => a.erase s) acc).Nodup
  | [], _, h => h
  | s :: rest, acc, h => nodup_foldl_erase rest (acc.erase s) (h.erase s)

theorem nodup_hierStep {acc : List String} (h : acc.Nodup) (p : String × List String) :
    (hierStep acc p).Nodup := by
  unfold hierStep
  split
  · exact nodup_jsSetAdd (nodup_foldl_erase p.2 acc h) p.1
  · exact h

theorem mem_hierStep_of_mem {acc : List String} {x : String}
    (p : String × List String) (hx : x ∈ acc) (hp : x ∉ p.2) : x ∈ hierStep acc p := by
  unfold hierStep
  split
  · exact mem_jsSetAdd_of_mem p.1 (mem_foldl_erase_of_not_mem p.2 acc hx hp)
  · exact hx

theorem not_mem_hierStep {acc : List String} {x : String}
    (p : String × List String) (hx : x ∉ acc) (hp : x ≠ p.1) : x ∉ hierStep acc p := by
  unfold hierStep
  split
  · exact not_mem_jsSetAdd (fun h => hx (mem_of_mem_foldl_erase p.2 acc h)) hp
  · exact hx

/-- After the hierarchy entry for `(w, [r])` has fired, the write scope
stays in the set and the read scope stays out through the remaining
hierarchy entries. -/
theorem hier_preserved {w r : String} :
    ∀ (hs : List (String × List String)) (acc : List String),
      w ∈ acc → r ∉ acc → (∀ p ∈ hs, w ∉ p.2 ∧ r ≠ p.1) →
      w ∈ hs.foldl hierStep acc ∧ r ∉ hs.foldl hierStep acc
  | [], _, hw, hr, _ => ⟨hw, hr⟩
  | p :: rest, acc, hw, hr, hside => by
    have hp := hside p (List.mem_cons_self p rest)
    refine hier_preserved rest (hierStep acc p)
      (mem_hierStep_of_mem p hw hp.1) (not_mem_hierStep p hr hp.2)
      (fun q hq => hside q (List.mem_cons_of_mem p hq))

/-- Running the hierarchy pass over a list that contains the entry
`(w, [r])`, starting from a duplicate-free set containing `r`: the output
contains `w` and not `r`.  The side condition records that no other entry
deletes `w` or `r`, true of the concrete `SCOPE_HIERARCHY`. -/
theorem hier_collapse {w r : String} :
    ∀ (hs : List (String × List String)) (acc : List String),
      (w, [r]) ∈ hs → r ∈ acc → acc.Nodup →
      (∀ p ∈ hs, w ∉ p.2 ∧ r ≠ p.1 ∧ (r ∈ p.2 → p = (w, [r]))) →
      w ∈ hs.foldl hierStep acc ∧ r ∉ hs.foldl hierStep acc
  | [], _, hmem, _, _, _ => absurd hmem (List.not_mem_nil _)
  | p :: rest, acc, hmem, hr, hnd, hside => by
    have hp := hside p (List.mem_cons_self p rest)
    by_cases hrp : r ∈ p.2
    · -- this entry is (w, [r]) and it fires
      have hpw : p = (w, [r]) := hp.2.2 hrp
      subst hpw
      have hcond : ([r].all (fun s => acc.contains s)) = true := by
        simp [hr]
      have hstep : hierStep acc (w, [r]) = jsSetAdd (acc.erase r) w := by
        unfold hierStep
        rw [if_pos hcond]
        rfl
      have hw' : w ∈ hierStep acc (w, [r]) := by
        rw [hstep]; exact mem_jsSetAdd_self _ w
      have hr' : r ∉ hierStep acc (w, [r]) := by
        rw [hstep]
        refine not_mem_jsSetAdd ?_ hp.2.1
        intro hmem'
        exact absurd ((List.Nodup.mem_erase_iff hnd).mp hmem').1 (by simp)
      exact hier_preserved rest _ hw' hr'
        (fun q hq => ⟨(hside q (List.mem_cons_of_mem _ hq)).1,
                      (hside q (List.mem_cons_of_mem _ hq)).2.1⟩)
    · -- a different entry: r survives it untouched
      have hentry : (w, [r]) ∈ rest := by
        rcases List.mem_cons.mp hmem with h' | h'
        · exact absurd (by rw [← h'] at hrp ⊢; simpa using hrp) hrp
        · exact h'
      exact hier_collapse rest (hierStep acc p) hentry
        (mem_hierStep_of_mem p hr hrp) (nodup_hierStep hnd p)
        (fun q hq => hside q (List.mem_cons_of_mem p hq))

/-- C1, counterexample: with hierarchy entry `(Mail.ReadWrite, [Mail.Read])`
and a catalog granting only `Mail.Read`, `buildScopesFromEndpoints`
returns `[Mail.ReadWrite]` — the output contains the write scope `W` and
does not contain the read scope `R`, the opposite of what the claim
states for a catalog granting only `R`. -/
theorem c1_scope_aggregation_counterexample :
    buildScopesFromEndpoints [⟨some ["Mail.Read"], false⟩] false = ["Mail.ReadWrite"] ∧
    "Mail.Read" ∉ buildScopesFromEndpoints [⟨some ["Mail.Read"], false⟩] false ∧
    "Mail.ReadWrite" ∈ buildScopesFromEndpoints [⟨some ["Mail.Read"], false⟩] false := by
  refine ⟨by decide, ?_, ?_⟩ <;> decide

/-- C1, amended: for a hierarchy entry `(W, [R])`, whenever the catalog
grants `R` on an included endpoint — regardless of whether `W` itself is
granted — the aggregator's output contains `W` and excludes `R`.  In
particular a catalog granting only `R` yields `W` and not `R`, and a
catalog granting both `R` and `W` also yields `W` and not `R`. -/
theorem c1_scope_aggregation (w r : String) (endpoints : List EndpointScopeInfo)
    (includeWork : Bool) (hmem : (w, [r]) ∈ SCOPE_HIERARCHY)
    (hgrant : ∃ e ∈ endpoints, (e.requiresWorkAccount && !includeWork) = false ∧
      ∃ scs, e.scopes = some scs ∧ r ∈ scs) :
    w ∈ buildScopesFromEndpoints endpoints includeWork ∧
    r ∉ buildScopesFromEndpoints endpoints includeWork := by
  have hr : r ∈ endpoints.foldl (collectStep includeWork) [] :=
    mem_collected endpoints includeWork [] hgrant
  have hnd : (endpoints.foldl (collectStep includeWork) []).Nodup :=
    nodup_collected endpoints includeWork [] List.nodup_nil
  have hside : ∀ p ∈ SCOPE_HIERARCHY, w ∉ p.2 ∧ r ≠ p.1 ∧ (r ∈ p.2 → p = (w, [r])) := by
    have hmem' := hmem
    simp only [SCOPE_HIERARCHY, List.mem_cons, List.not_mem_nil, or_false,
      Prod.mk.injEq, List.cons.injEq, and_true] at hmem'
    rcases hmem' with ⟨h1, h2⟩ | ⟨h1, h2⟩ | ⟨h1, h2⟩ | ⟨h1, h2⟩ | ⟨h1, h2⟩ <;>
      subst h1 <;> subst h2 <;> decide
  exact hier_collapse SCOPE_HIERARCHY _ hmem hr hnd hside

/-- Witness for C1: a concrete catalog granting only `Mail.Read` (plus an
unrelated `User.Read`); the aggregated scopes contain `Mail.ReadWrite`
and not `Mail.Read`. -/
theorem c1_scope_aggregation_witness :
    "Mail.ReadWrite" ∈
      buildScopesFromEndpoints [⟨some ["User.Read", "Mail.Read"], false⟩] false ∧
    "Mail.Read" ∉
      buildScopesFromEndpoints [⟨some ["User.Read", "Mail.Read"], false⟩] false :=
  c1_scope_aggregation "Mail.ReadWrite" "Mail.Read"
    [⟨some ["User.Read", "Mail.Read"], false⟩] false (by decide)
    ⟨⟨some ["User.Read", "Mail.Read"], false⟩, by decide, by decide, _, rfl, by decide⟩

/-! ## Pagination Engine — the `fetchAllPages` block of
`registerGraphTools` in `src/dist/graph-tools.js` (lines 139-183).

A page payload is modelled by the three fields the pagination code reads
and writes: the `value` array (absent or a list of items, items taken as
integers), the `@odata.nextLink` cursor and the `@odata.count` field.
A follow-up fetch (the `new URL`/`graphRequest`/`JSON.parse` sequence of
one loop iteration) is a function from the cursor string to one of:
a thrown error (transport failure or URL/JSON parse failure), an empty
response (no content — the loop breaks), or a parsed page payload. -/

structure Payload where
  value : Option (List Int)
  odataNextLink : Option String
  odataCount : Option Int
deriving DecidableEq

inductive FetchResult where
  | throws : FetchResult
  | empty : FetchResult
  | page : Payload → FetchResult
deriving DecidableEq

/-- Outcome of the `while (nextLink)` loop: `ok items pageCount fetches`
when the loop exits normally (cursor exhausted, empty response, or page
cap), `err fetches` when an iteration throws (caught at line 180). The
last component counts follow-up fetches issued. -/
inductive PagOutcome where
  | ok : List Int → Nat → Nat → PagOutcome
  | err : Nat → PagOutcome
deriving DecidableEq

/-- The `while (nextLink)` loop.  `fuel` is a structural bound on the
number of remaining iterations; it is always called with
`pageCount + fuel = 101`, and since the loop increments `pageCount` on
every iteration and breaks as soon as `pageCount > 100`, the fuel can
never be exhausted before the cap fires (the `fuel = 0` branch returns
the same break outcome and is unreachable from `runPagination`). -/
def pagLoop (fetch : String → FetchResult) :
    Nat → Option String → List Int → Nat → Nat → PagOutcome
  | _, none, items, pageCount, fetches => .ok items pageCount fetches
  | 0, some _, items, pageCount, fetches => .ok items pageCount fetches
  | fuel + 1, some link, items, pageCount, fetches =>
    match fetch link with
    | .throws => .err (fetches + 1)
    | .empty => .ok items pageCount (fetches + 1)
    | .page p =>
      let items' := match p.value with
        | some v => items ++ v
        | none => items
      if 100 < pageCount + 1 then .ok items' (pageCount + 1) (fetches + 1)
      else pagLoop fetch fuel p.odataNextLink items' (pageCount + 1) (fetches + 1)

/-- `combinedResponse.value || []`: the accumulator starts from the first
page's `value` array, or empty when absent. -/
def initialItems (p : Payload) : List Int :=
  match p.value with
  | some v => v
  | none => []

/-- Run the pagination loop from the parsed first-page payload:
`pageCount` starts at 1 and the cursor is the first page's nextLink. -/
def runPagination (fetch : String → FetchResult) (first : Payload) : PagOutcome :=
  pagLoop fetch 100 first.odataNextLink (initialItems first) 1 0

/-- JavaScript truthiness of the `@odata.count` field
(`if (combinedResponse['@odata.count'])`): present and nonzero. -/
def countTruthy : Option Int → Bool
  | some c => !(c == 0)
  | none => false

/-- The whole `fetchAllPages` block, given the parsed first-page payload:
on normal loop exit, replace `value` with the accumulator, update a
truthy `@odata.count` to the accumulated length and delete
`@odata.nextLink`; when an iteration throws, the `catch` at line 180
swallows the error and the original response payload is left untouched.
Also returns the number of follow-up fetches issued. -/
def applyPagination (fetch : String → FetchResult) (first : Payload) :
    Payload × Nat :=
  match runPagination fetch first with
  | .err f => (first, f)
  | .ok allItems _ f =>
    ({ value := some allItems,
       odataNextLink := none,
       odataCount := if countTruthy first.odataCount then
           some (allItems.length : Int)
         else first.odataCount }, f)

/-- C2, counterexample: first page has `value = [1]` and a cursor; the
first follow-up fetch succeeds with `value = [2]` and a further cursor;
the second follow-up fetch throws.  The claim says the result contains
the accumulated items `[1, 2]`; the code returns the original first-page
payload unchanged — `value = [1]` with the cursor still present. -/
theorem c2_pagination_partial_counterexample :
    (applyPagination
        (fun s => if s.length == 1 then .page ⟨some [2], some "ab", none⟩ else .throws)
        ⟨some [1], some "a", none⟩).1.value = some [1] ∧
    some ([1] : List Int) ≠ some [1, 2] ∧
    (applyPagination
        (fun s => if s.length == 1 then .page ⟨some [2], some "ab", none⟩ else .throws)
        ⟨some [1], some "a", none⟩).1.odataNextLink = some "a" := by
  refine ⟨by decide, by decide, by decide⟩

/-- C2, amended: when a follow-up page fetch throws (transport error or
URL/JSON parse failure), pagination aborts without raising, and the
invocation's result is the ORIGINAL first-page response payload,
unchanged — the items accumulated from successfully fetched follow-up
pages are discarded (so the caller gets just the first page, with its
cursor intact), not an error. -/
theorem c2_pagination_failure_keeps_first_page (fetch : String → FetchResult)
    (first : Payload) (f : Nat)
    (herr : runPagination fetch first = .err f) :
    applyPagination fetch first = (first, f) := by
  unfold applyPagination
  rw [herr]

/-- Witness for C2: a fetch that always throws; the result is the
first-page payload unchanged after one failed follow-up fetch. -/
theorem c2_pagination_failure_witness :
    applyPagination (fun _ => .throws) ⟨some [1], some "a", none⟩ =
      (⟨some [1], some "a", none⟩, 1) :=
  c2_pagination_failure_keeps_first_page (fun _ => .throws)
    ⟨some [1], some "a", none⟩ 1 rfl

/-- C4 helper: when every follow-up fetch returns a page carrying a
further cursor, the loop never exits via the cursor or empty-response
checks; starting from `pageCount = pc` with `pc + fuel = 101` it issues
exactly `fuel` more fetches and exits via the page cap with
`pageCount = 101`. -/
theorem pagLoop_infinite_cursor (fetch : String → FetchResult)
    (hfetch : ∀ s, ∃ p, fetch s = .page p ∧ p.odataNextLink.isSome = true) :
    ∀ (fuel pc : Nat), 1 ≤ pc → pc + fuel = 101 →
      ∀ (link : String) (items : List Int) (f : Nat),
        ∃ items2,
          pagLoop fetch fuel (some link) items pc f = .ok items2 101 (f + fuel)
  | 0, pc, _, hsum, _, items, f => by
    have hpc : pc = 101 := by omega
    subst hpc
    exact ⟨items, rfl⟩
  | fuel + 1, pc, hpc, hsum, link, items, f => by
    obtain ⟨p, hp, hnext⟩ := hfetch link
    obtain ⟨l', hl'⟩ := Option.isSome_iff_exists.mp hnext
    by_cases hcap : 100 < pc + 1
    · have h100 : pc = 100 := by omega
      subst h100
      have hfuel : fuel = 0 := by omega
      subst hfuel
      refine ⟨(match p.value with | some v => items ++ v | none => items), ?_⟩
      simp only [pagLoop, hp]
      rw [if_pos hcap]
    · obtain ⟨items2, hrec⟩ :=
        pagLoop_infinite_cursor fetch hfetch fuel (pc + 1) (by omega) (by omega)
          l' (match p.value with | some v => items ++ v | none => items) (f + 1)
      refine ⟨items2, ?_⟩
      simp only [pagLoop, hp]
      rw [if_neg hcap, hl', hrec]
      have harith : f + 1 + fuel = f + (fuel + 1) := by omega
      rw [harith]

/-- C4: with `fetchAllPages` requested and responses whose cursors never
terminate, the pagination loop stops via the hard page cap after exactly
100 follow-up fetches (`pageCount` reaches 101), exiting normally — not
with an error — even though the last page still carried a cursor. -/
theorem c4_page_cap (fetch : String → FetchResult) (first : Payload) (link : String)
    (hfetch : ∀ s, ∃ p, fetch s = .page p ∧ p.odataNextLink.isSome = true)
    (hfirst : first.odataNextLink = some link) :
    ∃ items, runPagination fetch first = .ok items 101 100 := by
  unfold runPagination
  rw [hfirst]
  simpa using pagLoop_infinite_cursor fetch hfetch 100 1 (le_refl 1) (by omega)
    link (initialItems first) 0

/-- Witness for C4: a concrete never-terminating cursor family. -/
theorem c4_page_cap_witness :
    ∃ items,
      runPagination (fun _ => .page ⟨some [], some "c", none⟩)
        ⟨some [], some "c", none⟩ = .ok items 101 100 :=
  c4_page_cap (fun _ => .page ⟨some [], some "c", none⟩) ⟨some [], some "c", none⟩
    "c" (fun _ => ⟨⟨some [], some "c", none⟩, rfl, rfl⟩) rfl

/-! ### The synthetic N-page family of C3: page i has `value = [i]`,
pages i < N carry a cursor, page N carries none.  Cursors are encoded by
their length so that the fetch function can recover the page index. -/

/-- Cursor for page `i`: the string of `i` copies of `x`. -/
def cursN (i : Nat) : String := String.mk (List.replicate i 'x')

/-- Page `i` of the `N`-page family. -/
def pageN (N i : Nat) : Payload :=
  { value := some [(i : Int)],
    odataNextLink := if i < N then some (cursN (i + 1)) else none,
    odataCount := none }

/-- The follow-up fetch of the `N`-page family: a cursor of length `i`
(2 ≤ i ≤ N) yields page `i`. -/
def fetchN (N : Nat) (s : String) : FetchResult :=
  if 2 ≤ s.length ∧ s.length ≤ N then .page (pageN N s.length) else .empty

/-- The first page of the `N`-page family, with an optional
`@odata.count` field. -/
def firstN (N : Nat) (c : Option Int) : Payload :=
  { value := some [(1 : Int)],
    odataNextLink := if 1 < N then some (cursN 2) else none,
    odataCount := c }

/-- `[k, k+1, ..., k+n-1]` as integers. -/
def pagesFrom (k n : Nat) : List Int := (List.range n).map (fun j => ((k + j : Nat) : Int))

theorem cursN_length (i : Nat) : (cursN i).length = i := by
  simp [cursN, String.length]

theorem pagesFrom_succ (k n : Nat) :
    pagesFrom k (n + 1) = ((k : Nat) : Int) :: pagesFrom (k + 1) n := by
  unfold pagesFrom
  rw [List.range_succ_eq_map, List.map_cons, List.map_map]
  refine congrArg₂ _ (by simp) (List.map_congr_left ?_)
  intro j _
  show ((k + (j + 1) : Nat) : Int) = ((k + 1 + j : Nat) : Int)
  exact congrArg _ (by omega)

theorem pagesFrom_length (k n : Nat) : (pagesFrom k n).length = n := by
  simp [pagesFrom]

/-- C3 helper: running the loop over the `N`-page family from page
`pc + 1` appends pages `pc+1 .. N` to the accumulator and issues
`N - pc` fetches, finishing with `pageCount = N`. -/
theorem pagLoopN {N : Nat} (hN : N ≤ 100) :
    ∀ (fuel pc : Nat), 1 ≤ pc → pc + 1 ≤ N → pc + fuel = 101 →
      ∀ (items : List Int) (f : Nat),
        pagLoop (fetchN N) fuel (some (cursN (pc + 1))) items pc f =
          .ok (items ++ pagesFrom (pc + 1) (N - pc)) N (f + (N - pc))
  | 0, pc, h1, h2, hsum, items, f => by omega
  | fuel + 1, pc, h1, h2, hsum, items, f => by
    have hfetch : fetchN N (cursN (pc + 1)) = .page (pageN N (pc + 1)) := by
      unfold fetchN
      rw [cursN_length]
      rw [if_pos ⟨by omega, h2⟩]
    simp only [pagLoop, hfetch, pageN]
    rw [if_neg (by omega : ¬ 100 < pc + 1)]
    by_cases hlt : pc + 1 < N
    · rw [if_pos hlt]
      have hrec := pagLoopN hN fuel (pc + 1) (by omega) (by omega) (by omega)
        (items ++ [((pc + 1 : Nat) : Int)]) (f + 1)
      rw [hrec]
      have hn : N - pc = (N - (pc + 1)) + 1 := by omega
      rw [hn, pagesFrom_succ]
      have harith : f + 1 + (N - (pc + 1)) = f + (N - (pc + 1) + 1) := by omega
      rw [harith, List.append_assoc]
      rfl
    · rw [if_neg hlt]
      have hend : N = pc + 1 := by omega
      subst hend
      simp only [pagLoop]
      have hn : pc + 1 - pc = 1 := by omega
      rw [hn]
      have : pagesFrom (pc + 1) 1 = [((pc + 1 : Nat) : Int)] := by
        unfold pagesFrom
        rw [show (1 : Nat) = 0 + 1 from rfl, List.range_succ]
        simp
      rw [this]

/-- C3, amended: aggregating the synthetic `N`-page family (page `i` has
`value = [i]`, pages `i < N` carry a cursor, page `N` none; `N` within
the page cap) yields a single response with `value = [1, ..., N]`, no
`@odata.nextLink`, and — if an `@odata.count` field is present WITH A
NONZERO VALUE — `@odata.count = N`.  (A zero count is left unchanged by
the JavaScript truthiness guard; see the counterexample.)  `N - 1`
follow-up fetches are issued. -/
theorem c3_roundtrip_aggregation (N : Nat) (c : Int) (h1 : 1 ≤ N) (h2 : N ≤ 100)
    (hc : c ≠ 0) :
    applyPagination (fetchN N) (firstN N (some c)) =
      ({ value := some (pagesFrom 1 N), odataNextLink := none,
         odataCount := some (N : Int) }, N - 1) := by
  have hbeq : ((c == 0) : Bool) = false := beq_eq_false_iff_ne.mpr hc
  unfold applyPagination runPagination
  by_cases hlt : 1 < N
  · have hfirst : (firstN N (some c)).odataNextLink = some (cursN 2) := by
      simp [firstN, hlt]
    have hinit : initialItems (firstN N (some c)) = [(1 : Int)] := rfl
    rw [hfirst, hinit]
    have hloop := pagLoopN h2 100 1 le_rfl (by omega) (by omega) [(1 : Int)] 0
    norm_num at hloop
    rw [hloop]
    have hcons : (1 : Int) :: pagesFrom 2 (N - 1) = pagesFrom 1 N := by
      have hsplit : N = (N - 1) + 1 := by omega
      rw [hsplit, pagesFrom_succ]
      norm_num
    simp only [firstN, countTruthy, hbeq, Bool.not_false, if_true,
      List.singleton_append, hcons, pagesFrom_length]
  · have hN1 : N = 1 := by omega
    subst hN1
    have hfirst : (firstN 1 (some c)).odataNextLink = none := rfl
    have hinit : initialItems (firstN 1 (some c)) = [(1 : Int)] := rfl
    rw [hfirst, hinit]
    have hp11 : pagesFrom 1 1 = [(1 : Int)] := by decide
    simp only [pagLoop, firstN, countTruthy, hbeq, Bool.not_false, if_true, hp11]
    norm_num

/-- C3, counterexample: with `N = 1` and an `@odata.count` field present
with value `0`, the truthiness guard `if (combinedResponse['@odata.count'])`
skips the update, so the final count stays `0` instead of the claimed
`N = 1`. -/
theorem c3_roundtrip_count_counterexample :
    (applyPagination (fetchN 1) (firstN 1 (some 0))).1.value = some [1] ∧
    (applyPagination (fetchN 1) (firstN 1 (some 0))).1.odataNextLink = none ∧
    (applyPagination (fetchN 1) (firstN 1 (some 0))).1.odataCount = some 0 ∧
    some (0 : Int) ≠ some (1 : Int) :=
  ⟨by decide, by decide, by decide, by decide⟩

/-- Witness for C3: the three-page family with a nonzero count field. -/
theorem c3_roundtrip_aggregation_witness :
    applyPagination (fetchN 3) (firstN 3 (some 7)) =
      ({ value := some [1, 2, 3], odataNextLink := none, odataCount := some 3 }, 2) := by
  rw [c3_roundtrip_aggregation 3 7 (by decide) (by decide) (by decide)]
  decide

/-! ## Request Translator — the per-invocation handler body of
`registerGraphTools` in `src/dist/graph-tools.js` (lines 48-135).

Parameter-bag values are modelled by `JValue` (string, number, boolean,
null); `JSON.parse` on body strings is an external builtin, taken as a
`String → Option JValue` parameter (`none` models a thrown parse error).
`encodeURIComponent`, `String.prototype.replace` with a string pattern
(which replaces only the FIRST occurrence), `toLowerCase`/`toUpperCase`
on the ASCII strings involved, and `JSON.stringify` are implemented. -/

inductive JValue where
  | str : String → JValue
  | num : Int → JValue
  | bool : Bool → JValue
  | null : JValue
deriving DecidableEq

/-- JavaScript string coercion (template literal interpolation). -/
def jsToString : JValue → String
  | .str s => s
  | .num n => toString n
  | .bool b => if b then "true" else "false"
  | .null => "null"

def hexDigitChar (n : Nat) : Char :=
  if n < 10 then Char.ofNat (48 + n) else Char.ofNat (55 + n)

/-- `JSON.stringify` escaping of one character inside a string literal. -/
def jsonEscapeChar (c : Char) : List Char :=
  if c = '"' then ['\\', '"']
  else if c = '\\' then ['\\', '\\']
  else if c = '\n' then ['\\', 'n']
  else if c = '\r' then ['\\', 'r']
  else if c = '\t' then ['\\', 't']
  else if c = Char.ofNat 8 then ['\\', 'b']
  else if c = Char.ofNat 12 then ['\\', 'f']
  else if c.toNat < 32 then
    ['\\', 'u', '0', '0', hexDigitChar (c.toNat / 16), hexDigitChar (c.toNat % 16)]
  else [c]

def jsonEscapeList : List Char → List Char
  | [] => []
  | c :: cs => jsonEscapeChar c ++ jsonEscapeList cs

def jsonEscape (s : String) : String := String.mk (jsonEscapeList s.data)

/-- `JSON.stringify` of a `JValue`. -/
def jsonStringify : JValue → String
  | .str s => "\"" ++ jsonEscape s ++ "\""
  | .num n => toString n
  | .bool b => if b then "true" else "false"
  | .null => "null"

/-- Characters `encodeURIComponent` leaves unescaped:
`A-Z a-z 0-9 - _ . ! ~ * ' ( )`. -/
def isUnreservedURIChar (c : Char) : Bool :=
  let n := c.toNat
  (48 ≤ n && n ≤ 57) || (65 ≤ n && n ≤ 90) || (97 ≤ n && n ≤ 122) ||
    n == 45 || n == 95 || n == 46 || n == 33 || n == 126 || n == 42 ||
    n == 39 || n == 40 || n == 41

/-- UTF-8 encoding of one character, as byte values. -/
def utf8BytesOf (c : Char) : List Nat :=
  let n := c.toNat
  if n < 128 then [n]
  else if n < 2048 then [192 + n / 64, 128 + n % 64]
  else if n < 65536 then [224 + n / 4096, 128 + (n / 64) % 64, 128 + n % 64]
  else [240 + n / 262144, 128 + (n / 4096) % 64, 128 + (n / 64) % 64, 128 + n % 64]

def percentEncodeByte (b : Nat) : List Char :=
  ['%', hexDigitChar (b / 16), hexDigitChar (b % 16)]

def encodeURIComponentList : List Char → List Char
  | [] => []
  | c :: cs =>
    (if isUnreservedURIChar c then [c]
     else (utf8BytesOf c).foldr (fun b acc => percentEncodeByte b ++ acc) []) ++
      encodeURIComponentList cs

/-- The ECMAScript `encodeURIComponent` builtin. -/
def encodeURIComponent (s : String) : String :=
  String.mk (encodeURIComponentList s.data)

/-- ASCII `String.prototype.toLowerCase` (all strings involved are ASCII). -/
def toLowerStr (s : String) : String := String.mk (s.data.map Char.toLower)

/-- ASCII `String.prototype.toUpperCase`. -/
def toUpperStr (s : String) : String := String.mk (s.data.map Char.toUpper)

/-- `String.prototype.replace` with a STRING pattern replaces only the
first occurrence.  (The patterns used by the translator, `{name}` and
`:name`, are never empty.) -/
def replaceFirstAux (pat rep : List Char) : List Char → List Char
  | [] => []
  | c :: rest =>
    if pat.isPrefixOf (c :: rest) then rep ++ (c :: rest).drop pat.length
    else c :: replaceFirstAux pat rep rest

def replaceFirstStr (s pat rep : String) : String :=
  String.mk (replaceFirstAux pat.data rep.data s.data)

def containsChar (s : String) (c : Char) : Bool := s.data.contains c

def endsWithStr (s t : String) : Bool := t.data.isSuffixOf s.data

/-- The zod schema attached to a parameter definition, reduced to what
the claims inspect: `z.string()` for synthesized path parameters. -/
inductive ZodSchema where
  | zstring
  | zany
deriving DecidableEq

structure ParameterDef where
  name : String
  type : String
  schema : Option ZodSchema := none
deriving DecidableEq

/-- An endpoint descriptor of the catalog (`api.endpoints`).  The source
field `alias` is called `toolAlias` here because `alias` is a Lean
keyword; `errorDescriptions` lists the `description` strings of the
descriptor's `errors` metadata. -/
structure Endpoint where
  toolAlias : String
  method : String
  path : String
  parameters : List ParameterDef
  errorDescriptions : List String := []
deriving DecidableEq

/-- The fixed `odataParams` table (graph-tools.js lines 60-70). -/
def odataParams : List String :=
  ["filter", "select", "expand", "orderby", "skip", "top", "count", "search", "format"]

/-- `fixedParamName` (lines 71-73): `$`-prefix the lowercased name when it
case-insensitively matches the OData table, else use it verbatim. -/
def fixedParamName (name : String) : String :=
  if odataParams.contains (toLowerStr name) then "$" ++ toLowerStr name else name

/-- Name-and-value dispatch applied to Query and Header parameters:
canonicalized name plus stringified value (lines 83 and 99). -/
def dispatchParam (name : String) (v : JValue) : String × String :=
  (fixedParamName name, jsToString v)

/-- JavaScript object property assignment on a string-keyed map:
overwrite in place when the key exists, else append. -/
def objSet : List (String × String) → String → String → List (String × String)
  | [], k, v => [(k, v)]
  | (k', v') :: rest, k, v =>
    if k' == k then (k, v) :: rest else (k', v') :: objSet rest k v

/-- Body-value handling (lines 86-96 and 104-114): a string body is
JSON-parsed, falling back to the raw string when parsing throws;
non-string values are used as-is. -/
def jsParseOrRaw (jsonParse : String → Option JValue) (v : JValue) : JValue :=
  match v with
  | .str s =>
    match jsonParse s with
    | some j => j
    | none => .str s
  | other => other

/-- The `Path` case (lines 78-80): replace the first occurrence of
`{name}` and the first occurrence of `:name` by the URL-encoded value. -/
def substPathParam (path name : String) (v : JValue) : String :=
  let enc := encodeURIComponent (jsToString v)
  replaceFirstStr (replaceFirstStr path ("\x7b" ++ name ++ "\x7d") enc) (":" ++ name) enc

/-- Mutable state of the `for (const [paramName, paramValue] of
Object.entries(params))` loop. -/
structure TransState where
  path : String
  queryParams : List (String × String)
  headers : List (String × String)
  body : Option JValue
deriving DecidableEq

/-- One iteration of the parameter loop (lines 53-117). -/
def stepParam (jsonParse : String → Option JValue) (defs : List ParameterDef)
    (st : TransState) (kv : String × JValue) : TransState :=
  if kv.1 == "fetchAllPages" then st
  else
    let d := dispatchParam kv.1 kv.2
    match defs.find? (fun p => p.name == kv.1) with
    | some pd =>
      if pd.type == "Path" then { st with path := substPathParam st.path kv.1 kv.2 }
      else if pd.type == "Query" then
        { st with queryParams := objSet st.queryParams d.1 d.2 }
      else if pd.type == "Body" then { st with body := some (jsParseOrRaw jsonParse kv.2) }
      else if pd.type == "Header" then
        { st with headers := objSet st.headers d.1 d.2 }
      else st
    | none =>
      if kv.1 == "body" then { st with body := some (jsParseOrRaw jsonParse kv.2) }
      else st

def jvTruthy : JValue → Bool
  | .str s => !(s == "")
  | .num n => !(n == 0)
  | .bool b => b
  | .null => false

/-- Line 129: a string body is sent verbatim, anything else is
`JSON.stringify`-ed. -/
def serializeBody : JValue → String
  | .str s => s
  | v => jsonStringify v

/-- The HTTP request descriptor handed to `graphClient.graphRequest`. -/
structure GraphRequest where
  method : String
  path : String
  headers : List (String × String)
  body : Option String
  rawResponse : Bool
deriving DecidableEq

/-- The full Request Translator (lines 48-135): run the parameter loop,
append the query string (`?` or `&` depending on whether the path already
contains `?`), attach the body only for non-GET methods and truthy body
values, and flag media-content responses as raw. -/
def translateRequest (jsonParse : String → Option JValue) (tool : Endpoint)
    (params : List (String × JValue)) : GraphRequest :=
  let st := params.foldl (stepParam jsonParse tool.parameters)
    { path := tool.path, queryParams := [], headers := [], body := none }
  let fullPath :=
    if 0 < st.queryParams.length then
      st.path ++ (if containsChar st.path '?' then "&" else "?") ++
        String.intercalate "&"
          (st.queryParams.map (fun q => encodeURIComponent q.1 ++ "=" ++ encodeURIComponent q.2))
    else st.path
  let method := toUpperStr tool.method
  { method := method,
    path := fullPath,
    headers := st.headers,
    body :=
      match st.body with
      | some v => if !(method == "GET") && jvTruthy v then some (serializeBody v) else none
      | none => none,
    rawResponse :=
      tool.errorDescriptions.contains "Retrieved media content" ||
        endsWithStr fullPath "/content" }

/-! ### `String.prototype.replace` with a string pattern: first-occurrence
semantics, used to settle C5. -/

/-- When the pattern's first occurrence in `a ++ pat ++ b` is exactly the
middle segment (no occurrence starts inside `a`), the replacement yields
`a ++ rep ++ b`. -/
theorem replaceFirstAux_first_occurrence (pat rep : List Char) (hpat : pat ≠ []) :
    ∀ (a b : List Char),
      (∀ i, i < a.length → ¬ pat <+: ((a ++ pat ++ b).drop i)) →
      replaceFirstAux pat rep (a ++ pat ++ b) = a ++ rep ++ b
  | [], b, _ => by
    match pat, hpat with
    | c :: pat', _ =>
      have hpre : (c :: pat').isPrefixOf (c :: pat' ++ b) = true := by
        rw [List.isPrefixOf_iff_prefix]
        exact List.prefix_append (c :: pat') b
      simp only [List.nil_append, List.cons_append, replaceFirstAux, hpre, if_true]
      simpa using List.drop_left (c :: pat') b
  | d :: a', b, h => by
    have h0 := h 0 (by simp)
    show replaceFirstAux pat rep (d :: (a' ++ pat ++ b)) = d :: (a' ++ rep ++ b)
    unfold replaceFirstAux
    split
    · rename_i hc
      exact absurd ((List.isPrefixOf_iff_prefix).mp hc) (by simpa using h0)
    · congr 1
      exact replaceFirstAux_first_occurrence pat rep hpat a' b (fun i hi => by
        have hh := h (i + 1) (by simpa using Nat.succ_lt_succ hi)
        simpa using hh)

/-- When the pattern does not occur in `s`, the replacement leaves `s`
unchanged. -/
theorem replaceFirstAux_not_occurs (pat rep : List Char) :
    ∀ (s : List Char), (∀ i, i < s.length → ¬ pat <+: s.drop i) →
      replaceFirstAux pat rep s = s
  | [], _ => rfl
  | c :: rest, h => by
    have hpre : pat.isPrefixOf (c :: rest) = false := by
      rw [Bool.eq_false_iff]
      intro hc
      refine h 0 (by simp) ?_
      simpa using (List.isPrefixOf_iff_prefix).mp hc
    simp only [replaceFirstAux, hpre, Bool.false_eq_true, if_false]
    rw [replaceFirstAux_not_occurs pat rep rest (fun i hi => by
      have hh := h (i + 1) (by simpa using Nat.succ_lt_succ hi)
      simpa using hh)]

/-- C5, counterexample: a descriptor whose path template contains `{x}`
twice.  Binding `x = "v"` resolves only the FIRST occurrence; the
translated path is `/v/{x}` and still contains the unresolved `{x}`
literal, contradicting the claim that every occurrence is replaced. -/
theorem c5_path_substitution_counterexample :
    (translateRequest (fun _ => none)
        { toolAlias := "t", method := "GET", path := "/\x7bx\x7d/\x7bx\x7d",
          parameters := [{ name := "x", type := "Path" }] }
        [("x", JValue.str "v")]).path = "/v/\x7bx\x7d" ∧
    ("\x7bx\x7d".data <:+: "/v/\x7bx\x7d".data) :=
  ⟨by decide, by decide⟩

/-- C5, amended: the Path case replaces only the FIRST occurrence of
`{x}` and the first occurrence of `:x` with the URL-encoded parameter
value; occurrences after the first remain unresolved.  Formally, one
conjunct per placeholder form: (i) when the first `{x}` occurrence in the
template is the exhibited middle segment and the `:x` form does not occur
in the substituted result, substitution yields exactly
`prefix ++ encoded value ++ suffix`; (ii) when the template contains no
`{x}` (so the first `.replace` at line 79 is the identity) and its first
`:x` occurrence is the exhibited middle segment, the second `.replace`
(line 80) likewise yields `prefix ++ encoded value ++ suffix`. -/
theorem c5_path_substitution (a b name : String) (v : JValue) :
    ((∀ i, i < a.data.length →
        ¬ ("\x7b" ++ name ++ "\x7d").data <+:
          ((a ++ ("\x7b" ++ name ++ "\x7d") ++ b).data.drop i)) →
      (∀ i, i < (a ++ encodeURIComponent (jsToString v) ++ b).data.length →
        ¬ (":" ++ name).data <+:
          ((a ++ encodeURIComponent (jsToString v) ++ b).data.drop i)) →
      substPathParam (a ++ ("\x7b" ++ name ++ "\x7d") ++ b) name v =
        a ++ encodeURIComponent (jsToString v) ++ b) ∧
    ((∀ i, i < (a ++ (":" ++ name) ++ b).data.length →
        ¬ ("\x7b" ++ name ++ "\x7d").data <+:
          ((a ++ (":" ++ name) ++ b).data.drop i)) →
      (∀ i, i < a.data.length →
        ¬ (":" ++ name).data <+:
          ((a ++ (":" ++ name) ++ b).data.drop i)) →
      substPathParam (a ++ (":" ++ name) ++ b) name v =
        a ++ encodeURIComponent (jsToString v) ++ b) := by
  constructor
  · intro hfirst hcolon
    have hdata : (a ++ ("\x7b" ++ name ++ "\x7d") ++ b).data =
        a.data ++ ("\x7b" ++ name ++ "\x7d").data ++ b.data := by
      simp [String.data_append]
    have hdata2 : (a ++ encodeURIComponent (jsToString v) ++ b).data =
        a.data ++ (encodeURIComponent (jsToString v)).data ++ b.data := by
      simp [String.data_append]
    have hpat : ("\x7b" ++ name ++ "\x7d").data ≠ [] := by
      simp [String.data_append]
    have hfirst' : ∀ i, i < a.data.length →
        ¬ ("\x7b" ++ name ++ "\x7d").data <+:
          ((a.data ++ ("\x7b" ++ name ++ "\x7d").data ++ b.data).drop i) := by
      intro i hi
      have hh := hfirst i hi
      rwa [hdata] at hh
    have hcolon' : ∀ i,
        i < (a.data ++ (encodeURIComponent (jsToString v)).data ++ b.data).length →
        ¬ (":" ++ name).data <+:
          ((a.data ++ (encodeURIComponent (jsToString v)).data ++ b.data).drop i) := by
      intro i hi
      have hh := hcolon i (by rwa [hdata2])
      rwa [hdata2] at hh
    simp only [substPathParam, replaceFirstStr, hdata]
    rw [replaceFirstAux_first_occurrence _ _ hpat a.data b.data hfirst']
    show String.mk (replaceFirstAux (":" ++ name).data
        (encodeURIComponent (jsToString v)).data
        (a.data ++ (encodeURIComponent (jsToString v)).data ++ b.data)) =
      a ++ encodeURIComponent (jsToString v) ++ b
    rw [replaceFirstAux_not_occurs _ _ _ hcolon']
    apply String.ext
    simp [String.data_append]
  · intro hnobrace hcfirst
    have hdata : (a ++ (":" ++ name) ++ b).data =
        a.data ++ (":" ++ name).data ++ b.data := by
      simp [String.data_append]
    have hpatc : (":" ++ name).data ≠ [] := by
      simp [String.data_append]
    have hcfirst' : ∀ i, i < a.data.length →
        ¬ (":" ++ name).data <+:
          ((a.data ++ (":" ++ name).data ++ b.data).drop i) := by
      intro i hi
      have hh := hcfirst i hi
      rwa [hdata] at hh
    simp only [substPathParam, replaceFirstStr]
    rw [replaceFirstAux_not_occurs _ _ _ hnobrace]
    show String.mk (replaceFirstAux (":" ++ name).data
        (encodeURIComponent (jsToString v)).data
        ((a ++ (":" ++ name) ++ b).data)) =
      a ++ encodeURIComponent (jsToString v) ++ b
    rw [hdata]
    rw [replaceFirstAux_first_occurrence _ _ hpatc a.data b.data hcfirst']
    apply String.ext
    simp [String.data_append]

/-- Witness for C5, exercising both conjuncts: substituting `id = "a b"`
into `/users/{id}/messages` and into `/users/:id/messages` both give
`/users/a%20b/messages`. -/
theorem c5_path_substitution_witness :
    substPathParam ("/users/" ++ ("\x7bid\x7d") ++ "/messages") "id" (JValue.str "a b") =
      "/users/" ++ encodeURIComponent (jsToString (JValue.str "a b")) ++ "/messages" ∧
    substPathParam ("/users/" ++ (":id") ++ "/messages") "id" (JValue.str "a b") =
      "/users/" ++ encodeURIComponent (jsToString (JValue.str "a b")) ++ "/messages" ∧
    "/users/" ++ encodeURIComponent (jsToString (JValue.str "a b")) ++ "/messages" =
      "/users/a%20b/messages" :=
  ⟨by
    have h := (c5_path_substitution "/users/" "/messages" "id" (JValue.str "a b")).1
      (by decide) (by decide)
    simpa using h,
   by
    have h := (c5_path_substitution "/users/" "/messages" "id" (JValue.str "a b")).2
      (by decide) (by decide)
    simpa using h,
   by decide⟩

/-- The nine entries of `odataParams` are already lowercase, so the
code's membership test of the lowercased name is exactly a
case-insensitive match. -/
theorem odataParams_lower : ∀ s ∈ odataParams, toLowerStr s = s := by decide

/-- C7: a query or header parameter whose name case-insensitively matches
one of the fixed OData set is dispatched under the lowercased name
prefixed with `$`; any other name is used verbatim.  In both cases the
value is stringified. -/
theorem c7_odata_param_renaming (name : String) (v : JValue) :
    ((∃ s ∈ odataParams, toLowerStr name = toLowerStr s) →
      dispatchParam name v = ("$" ++ toLowerStr name, jsToString v)) ∧
    ((∀ s ∈ odataParams, toLowerStr name ≠ toLowerStr s) →
      dispatchParam name v = (name, jsToString v)) := by
  constructor
  · rintro ⟨s, hs, heq⟩
    have hmem : toLowerStr name ∈ odataParams := by
      rw [heq, odataParams_lower s hs]
      exact hs
    simp [dispatchParam, fixedParamName, hmem]
  · intro hall
    have hnotmem : toLowerStr name ∉ odataParams := fun hmem =>
      hall _ hmem (by rw [odataParams_lower _ hmem])
    simp [dispatchParam, fixedParamName, hnotmem]

/-- Witness for C7: `Filter` (mixed case, in the set) becomes `$filter`;
`top` stays in the set; `customParam` is passed verbatim. -/
theorem c7_odata_param_renaming_witness :
    dispatchParam "Filter" (JValue.str "x") = ("$filter", "x") ∧
    dispatchParam "top" (JValue.num 5) = ("$top", "5") ∧
    dispatchParam "customParam" (JValue.str "y") = ("customParam", "y") := by
  refine ⟨?_, ?_, ?_⟩
  · rw [(c7_odata_param_renaming "Filter" (JValue.str "x")).1
      ⟨"filter", by decide, by decide⟩]
    decide
  · rw [(c7_odata_param_renaming "top" (JValue.num 5)).1 ⟨"top", by decide, by decide⟩]
    decide
  · rw [(c7_odata_param_renaming "customParam" (JValue.str "y")).2 (by decide)]
    decide

/-- C10: for a GET endpoint the issued request carries no body — the
guard `if (options.method !== 'GET' && body)` (line 128) never attaches
one — even when a Body-kind parameter or the legacy `body` parameter is
bound in the invocation's parameter bag; the bound value is silently
dropped. -/
theorem c10_get_drops_body (jsonParse : String → Option JValue) (tool : Endpoint)
    (params : List (String × JValue)) (hget : toUpperStr tool.method = "GET") :
    (translateRequest jsonParse tool params).body = none := by
  simp only [translateRequest, hget]
  cases h : (params.foldl (stepParam jsonParse tool.parameters)
      { path := tool.path, queryParams := [], headers := [], body := none }).body with
  | none => rfl
  | some v => simp

/-- Witness for C10: a GET tool with a Body parameter bound; the request
body is still `none`. -/
theorem c10_get_drops_body_witness :
    (translateRequest (fun _ => none)
        { toolAlias := "g", method := "get", path := "/items",
          parameters := [{ name := "payload", type := "Body" }] }
        [("payload", JValue.str "data")]).body = none :=
  c10_get_drops_body (fun _ => none)
    { toolAlias := "g", method := "get", path := "/items",
      parameters := [{ name := "payload", type := "Body" }] }
    [("payload", JValue.str "data")] (by decide)

/-! ## Tool Registry — registration-time filtering in `registerGraphTools`
(graph-tools.js lines 4-23).

The JavaScript `RegExp` engine is external: `tryCompile` models
`new RegExp(pattern, 'i')`, returning `none` when the constructor throws
(the catch at line 11 then leaves `enabledToolsRegex` undefined, which
disables filtering) and otherwise the compiled case-insensitive test. -/

/-- The `enabledToolsRegex` variable after the try/catch: no pattern or a
falsy (empty) pattern or a failed compilation all leave it undefined. -/
def compiledRegex (tryCompile : String → Option (String → Bool))
    (pattern : Option String) : Option (String → Bool) :=
  match pattern with
  | some p => if p == "" then none else tryCompile p
  | none => none

/-- The two `continue` guards of the registration loop: skip non-GET
descriptors in read-only mode, and skip descriptors whose alias fails the
compiled pattern test. -/
def toolIncluded (readOnly : Bool) (regex : Option (String → Bool)) (t : Endpoint) : Bool :=
  !(readOnly && !(toUpperStr t.method == "GET")) &&
    (match regex with
     | some test => test t.toolAlias
     | none => true)

/-- `registerGraphTools(server, graphClient, readOnly, enabledToolsPattern)`
reduced to the descriptors it registers: the catalog filtered by the two
guards. -/
def registerGraphTools (tryCompile : String → Option (String → Bool))
    (endpoints : List Endpoint) (readOnly : Bool) (pattern : Option String) :
    List Endpoint :=
  endpoints.filter (toolIncluded readOnly (compiledRegex tryCompile pattern))

theorem toolIncluded_iff (readOnly : Bool) (rx : Option (String → Bool)) (t : Endpoint) :
    toolIncluded readOnly rx t = true ↔
      ((readOnly = false ∨ toUpperStr t.method = "GET") ∧
        (rx = none ∨ ∃ m, rx = some m ∧ m t.toolAlias = true)) := by
  cases rx with
  | none =>
    cases readOnly with
    | false => simp [toolIncluded]
    | true =>
      cases hg : (toUpperStr t.method == "GET") with
      | false =>
        have h' : toUpperStr t.method ≠ "GET" := by simpa using hg
        simp [toolIncluded, hg, h']
      | true =>
        have h' : toUpperStr t.method = "GET" := by simpa using hg
        simp [toolIncluded, hg, h']
  | some m =>
    cases readOnly with
    | false => simp [toolIncluded]
    | true =>
      cases hg : (toUpperStr t.method == "GET") with
      | false =>
        have h' : toUpperStr t.method ≠ "GET" := by simpa using hg
        simp [toolIncluded, hg, h']
      | true =>
        have h' : toUpperStr t.method = "GET" := by simpa using hg
        simp [toolIncluded, hg, h']

/-- C8: a catalog descriptor is registered iff (read-only mode is off or
its method is GET) and (no compiled pattern is in effect or its alias
passes the pattern test); and an invalid pattern string (the `RegExp`
constructor throws) disables name filtering entirely, so registration
behaves exactly as with no pattern at all. -/
theorem c8_registration_filter (tryCompile : String → Option (String → Bool))
    (endpoints : List Endpoint) (readOnly : Bool) (pattern : Option String)
    (t : Endpoint) :
    (t ∈ registerGraphTools tryCompile endpoints readOnly pattern ↔
      t ∈ endpoints ∧ (readOnly = false ∨ toUpperStr t.method = "GET") ∧
        (compiledRegex tryCompile pattern = none ∨
          ∃ m, compiledRegex tryCompile pattern = some m ∧ m t.toolAlias = true)) ∧
    (∀ p, pattern = some p → p ≠ "" → tryCompile p = none →
      registerGraphTools tryCompile endpoints readOnly pattern =
        registerGraphTools tryCompile endpoints readOnly none) := by
  constructor
  · rw [registerGraphTools, List.mem_filter, toolIncluded_iff]
  · intro p hp hne hTc
    subst hp
    have h1 : compiledRegex tryCompile (some p) = none := by
      simp [compiledRegex, beq_eq_false_iff_ne.mpr hne, hTc]
    unfold registerGraphTools
    rw [h1]
    rfl

/-- Witness for C8: an invalid pattern (the compiler rejects it) together
with read-only off registers the full one-element catalog. -/
theorem c8_registration_filter_witness :
    ({ toolAlias := "listItems", method := "get", path := "/items",
       parameters := [] } : Endpoint) ∈
      registerGraphTools (fun _ => none)
        [{ toolAlias := "listItems", method := "get", path := "/items",
           parameters := [] }] false (some "[") :=
  ((c8_registration_filter (fun _ => none)
      [{ toolAlias := "listItems", method := "get", path := "/items",
         parameters := [] }] false (some "[")
      { toolAlias := "listItems", method := "get", path := "/items",
        parameters := [] }).1).mpr
    ⟨by simp, Or.inl rfl, Or.inl rfl⟩

/-! ## Invocation handler boundary — the try/catch wrapping the whole
handler body (graph-tools.js lines 44-236).

The try body — translation, transport call, pagination, result assembly —
either produces an `McpResponse` or throws; a throw is modelled as
`Except.error` carrying `error.message`.  The catch at line 223 converts
any throw into a single error text block with `isError = true`, so the
handler is total: it returns a `CallToolResult` for every outcome. -/

structure ContentItem where
  type : String
  text : String
deriving DecidableEq

structure McpResponse where
  content : List ContentItem
  isError : Bool
deriving DecidableEq

structure CallToolResult where
  content : List ContentItem
  isError : Bool
deriving DecidableEq

/-- The error text built by the catch handler (lines 225-230):
`JSON.stringify({ error: "Error in tool <alias>: <message>" })`. -/
def errorText (toolAlias msg : String) : String :=
  "\x7b\"error\":" ++
    jsonStringify (.str ("Error in tool " ++ toolAlias ++ ": " ++ msg)) ++ "\x7d"

/-- The handler around the try/catch: on success, content items are
converted to text blocks and the transport's error flag is passed
through (lines 207-221); on a throw, the catch returns the single error
block (lines 223-235). -/
def toolHandlerResult (toolAlias : String) (outcome : Except String McpResponse) :
    CallToolResult :=
  match outcome with
  | .ok response =>
    { content := response.content.map (fun item => { type := "text", text := item.text }),
      isError := response.isError }
  | .error msg =>
    { content := [{ type := "text", text := errorText toolAlias msg }],
      isError := true }

theorem jsonEscapeList_append (l₁ l₂ : List Char) :
    jsonEscapeList (l₁ ++ l₂) = jsonEscapeList l₁ ++ jsonEscapeList l₂ := by
  induction l₁ with
  | nil => rfl
  | cons c cs ih => simp [jsonEscapeList, ih]

/-- C6: any exception raised anywhere in the handler path is caught and
converted into a result with `isError = true` whose content is the single
text block produced by the catch handler; the (JSON-escaped) error
message appears inside that block's text.  The handler is a total
function of the outcome, so an invocation never propagates an exception
to the caller. -/
theorem c6_handler_catches_exceptions (toolAlias msg : String) :
    (toolHandlerResult toolAlias (Except.error msg)).isError = true ∧
    (toolHandlerResult toolAlias (Except.error msg)).content =
      [{ type := "text", text := errorText toolAlias msg }] ∧
    ∃ pre post, (errorText toolAlias msg).data =
      pre ++ jsonEscapeList msg.data ++ post := by
  refine ⟨rfl, rfl, ?_⟩
  refine ⟨("\x7b\"error\":").data ++ ("\"").data ++
    jsonEscapeList ("Error in tool " ++ toolAlias ++ ": ").data, ("\"").data ++ ("\x7d").data, ?_⟩
  have hm : ("Error in tool " ++ toolAlias ++ ": " ++ msg).data =
      ("Error in tool " ++ toolAlias ++ ": ").data ++ msg.data := by
    simp [String.data_append]
  simp only [errorText, jsonStringify, jsonEscape, String.data_append, hm,
    jsonEscapeList_append]
  simp [List.append_assoc]

/-! ## Catalog load — the `Zodios` constructor in `src/dist/index.js`
(lines 57-88): strip `$`/`_` markers from parameter names, scan the path
template with the regex `/:([a-zA-Z0-9]+)/g`, and push a synthesized
string-typed Path parameter for every `:name` placeholder that has no
matching parameter.  Note the regex scans ONLY the `:name` form, not the
`{name}` form. -/

/-- `name.replace(/[$_]+/g, '')`: remove every `$` and `_`. -/
def stripMarkers (s : String) : String :=
  String.mk (s.data.filter (fun c => !(c == '$' || c == '_')))

/-- The character class `[a-zA-Z0-9]` of the path-parameter regex. -/
def isAlnumChar (c : Char) : Bool :=
  (48 ≤ c.toNat && c.toNat ≤ 57) || (65 ≤ c.toNat && c.toNat ≤ 90) ||
    (97 ≤ c.toNat && c.toNat ≤ 122)

/-- Scanner for `/:([a-zA-Z0-9]+)/g`: at each `:` take the maximal
nonempty alphanumeric run.  (The regex engine resumes after each match;
recursing on the tail instead is equivalent because the skipped
alphanumeric run cannot contain another `:`.) -/
def scanColonAux : List Char → List String
  | [] => []
  | c :: rest =>
    if c == ':' then
      match rest.takeWhile isAlnumChar with
      | [] => scanColonAux rest
      | name => String.mk name :: scanColonAux rest
    else scanColonAux rest

def scanColon (s : String) : List String := scanColonAux s.data

/-- The parameter pushed for an uncovered placeholder (lines 76-82):
kind Path, schema `z.string()`. -/
def synthPathParam (pp : String) : ParameterDef :=
  { name := pp, type := "Path", schema := some ZodSchema.zstring }

/-- One iteration of the `for (const pathParam of pathParams)` loop:
skip when some parameter's name matches the placeholder (raw or
marker-stripped), else push the synthesized Path parameter. -/
def zodiosStep (acc : List ParameterDef) (pp : String) : List ParameterDef :=
  if acc.any (fun param => param.name == pp || param.name == stripMarkers pp) then acc
  else acc ++ [synthPathParam pp]

/-- The whole per-endpoint processing of the Zodios constructor. -/
def processEndpoint (e : Endpoint) : Endpoint :=
  let stripped := e.parameters.map (fun p => { p with name := stripMarkers p.name })
  { e with parameters := (scanColon e.path).foldl zodiosStep stripped }

/-- Formalization of the CLAIM's `{name}`-form placeholder (the claim
speaks of both `{name}` and `:name`): an occurrence of `{`, a nonempty
brace-free name, and `}`.  The Zodios constructor itself never scans this
form. -/
def scanBraceAux : List Char → List String
  | [] => []
  | c :: rest =>
    (if c == '\x7b' then
      match rest.takeWhile (fun d => !(d == '\x7d' || d == '\x7b')) with
      | [] => []
      | name =>
        if (rest.drop name.length).head? == some '\x7d' then [String.mk name] else []
     else []) ++ scanBraceAux rest

def scanBrace (s : String) : List String := scanBraceAux s.data

/-- C9, counterexample: an endpoint whose path template is `/a/{x}` with
no declared parameters.  After catalog load its parameter list is still
empty: the `{name}`-form placeholder `x` has no ParameterDef of kind
Path — nothing is synthesized for it, because the constructor's regex
only scans the `:name` form. -/
theorem c9_placeholder_counterexample :
    scanBrace (processEndpoint
      { toolAlias := "t", method := "GET", path := "/a/\x7bx\x7d",
        parameters := [] }).path = ["x"] ∧
    (processEndpoint
      { toolAlias := "t", method := "GET", path := "/a/\x7bx\x7d",
        parameters := [] }).parameters = [] ∧
    ¬ (∀ pp ∈ scanBrace (processEndpoint
          { toolAlias := "t", method := "GET", path := "/a/\x7bx\x7d",
            parameters := [] }).path,
        ∃ d ∈ (processEndpoint
          { toolAlias := "t", method := "GET", path := "/a/\x7bx\x7d",
            parameters := [] }).parameters,
          d.type = "Path" ∧ d.name = pp) :=
  ⟨by decide, by decide, by decide⟩

theorem mem_foldl_zodios_of_mem {x : ParameterDef} :
    ∀ (l : List String) (acc : List ParameterDef), x ∈ acc → x ∈ l.foldl zodiosStep acc
  | [], _, h => h
  | pp :: rest, acc, h =>
    mem_foldl_zodios_of_mem rest (zodiosStep acc pp) (by
      unfold zodiosStep
      split
      · exact h
      · exact List.mem_append_left _ h)

theorem exists_name_foldl_zodios :
    ∀ (l : List String) (acc : List ParameterDef) (pp : String),
      pp ∈ l → stripMarkers pp = pp →
      ∃ d ∈ l.foldl zodiosStep acc, d.name = pp
  | [], _, _, h, _ => absurd h (List.not_mem_nil _)
  | q :: rest, acc, pp, h, hstrip => by
    rcases List.mem_cons.mp h with h' | h'
    · subst h'
      by_cases hany :
          (acc.any (fun param => param.name == pp || param.name == stripMarkers pp)) = true
      · obtain ⟨d, hd, hmatch⟩ := List.any_eq_true.mp hany
        refine ⟨d, mem_foldl_zodios_of_mem rest _ ?_, ?_⟩
        · unfold zodiosStep
          rw [if_pos hany]
          exact hd
        · rw [hstrip] at hmatch
          simpa using hmatch
      · refine ⟨synthPathParam pp, mem_foldl_zodios_of_mem rest _ ?_, rfl⟩
        unfold zodiosStep
        rw [if_neg hany]
        simp
    · exact exists_name_foldl_zodios rest (zodiosStep acc q) pp h' hstrip

theorem mem_foldl_zodios_origin {d : ParameterDef} :
    ∀ (l : List String) (acc : List ParameterDef),
      d ∈ l.foldl zodiosStep acc → d ∈ acc ∨ ∃ pp, d = synthPathParam pp
  | [], _, h => Or.inl h
  | q :: rest, acc, h => by
    rcases mem_foldl_zodios_origin rest (zodiosStep acc q) h with h' | h'
    · unfold zodiosStep at h'
      split at h'
      · exact Or.inl h'
      · rcases List.mem_append.mp h' with h'' | h''
        · exact Or.inl h''
        · exact Or.inr ⟨q, by simpa using h''⟩
    · exact Or.inr h'

theorem scanColonAux_alnum :
    ∀ (l : List Char) (n : String), n ∈ scanColonAux l → n.data.all isAlnumChar = true
  | [], n, h => absurd h (List.not_mem_nil n)
  | c :: rest, n, h => by
    by_cases hc : (c == ':') = true
    · unfold scanColonAux at h
      rw [if_pos hc] at h
      cases htw : rest.takeWhile isAlnumChar with
      | nil =>
        rw [htw] at h
        exact scanColonAux_alnum rest n h
      | cons d ds =>
        rw [htw] at h
        rcases List.mem_cons.mp h with h' | h'
        · subst h'
          refine List.all_eq_true.mpr (fun x hx => ?_)
          have hx' : x ∈ rest.takeWhile isAlnumChar := by
            rw [htw]
            exact hx
          exact List.mem_takeWhile_imp hx'
        · exact scanColonAux_alnum rest n h'
    · unfold scanColonAux at h
      rw [if_neg hc] at h
      exact scanColonAux_alnum rest n h

theorem stripMarkers_of_alnum {pp : String} (h : pp.data.all isAlnumChar = true) :
    stripMarkers pp = pp := by
  apply String.ext
  show pp.data.filter (fun c => !(c == '$' || c == '_')) = pp.data
  rw [List.filter_eq_self]
  intro a ha
  have halnum := List.all_eq_true.mp h a ha
  have h1 : a ≠ '$' := fun he => by
    rw [he] at halnum
    exact absurd halnum (by decide)
  have h2 : a ≠ '_' := fun he => by
    rw [he] at halnum
    exact absurd halnum (by decide)
  simp [h1, h2]

/-- C9, amended: after catalog load, every `:name`-form placeholder of
the path template has a ParameterDef whose (marker-stripped) name matches
it — synthesized with kind Path and an opaque string schema when no
parameter of that name was declared.  `{name}`-form placeholders are not
scanned and get nothing synthesized, and when a declared parameter of any
kind (e.g. Query) already bears the placeholder's name, no Path
definition is added. -/
theorem c9_colon_placeholder_params (e : Endpoint) (pp : String)
    (hpp : pp ∈ scanColon e.path) :
    (∃ d ∈ (processEndpoint e).parameters, d.name = pp) ∧
    ((∀ q ∈ e.parameters, stripMarkers q.name ≠ pp) →
      synthPathParam pp ∈ (processEndpoint e).parameters) := by
  have halnum : pp.data.all isAlnumChar = true := scanColonAux_alnum e.path.data pp hpp
  have hstrip := stripMarkers_of_alnum halnum
  have hex := exists_name_foldl_zodios (scanColon e.path)
    (e.parameters.map (fun p => { p with name := stripMarkers p.name })) pp hpp hstrip
  constructor
  · simpa [processEndpoint] using hex
  · intro hnone
    obtain ⟨d, hd, hdname⟩ := hex
    rcases mem_foldl_zodios_origin _ _ hd with h' | ⟨pp', hpp'⟩
    · obtain ⟨q, hq, hqe⟩ := List.mem_map.mp h'
      have : stripMarkers q.name = pp := by
        rw [← hqe] at hdname
        simpa using hdname
      exact absurd this (hnone q hq)
    · have hpp'' : pp' = pp := by
        rw [hpp'] at hdname
        simpa [synthPathParam] using hdname
      subst hpp''
      rw [← hpp']
      simpa [processEndpoint] using hd

/-- Witness for C9: the endpoint `/users/:id/messages` with no declared
parameters gets a synthesized string-typed Path parameter `id`. -/
theorem c9_colon_placeholder_params_witness :
    "id" ∈ scanColon "/users/:id/messages" ∧
    synthPathParam "id" ∈
      (processEndpoint { toolAlias := "t", method := "GET", path := "/users/:id/messages", parameters := [] }).parameters :=
  ⟨by decide,
   (c9_colon_placeholder_params
      { toolAlias := "t", method := "GET", path := "/users/:id/messages", parameters := [] }
      "id" (by decide)).2 (by decide)⟩
